import Mathlib

/-!
# Verification of the undo-record codec (`src/blockdata/undo.rs`)

Shallow embedding of the Bitcoin undo-record codec: `TxOutUndo` /
`TxUndo` / `BlockUndo` decode and encode, the amount decompression
function `decompress_txout_amt`, the height/coinbase parity packing and
the script-length inference table.  Byte streams are modelled as
`List Nat` (each element a byte value `0 ≤ b < 256`); Rust `usize`
arithmetic is modelled on `Nat`; fallible reads return `Except`.

External collaborators (`VarInt2`, `VarInt`, `CompressedScript`,
`ReadExt`) are not part of the source fragment; they are modelled from
the specification's contracts and marked as such in their doc comments.
-/

namespace Undo

/-- Decode-time failure.  `truncated` models an I/O error from a short
read (`ReadExt`/varint primitives failing on stream exhaustion);
`invalidScript` is the compressed-script collaborator's own rejection
error (spec §7, "invalid script payload"); `scriptUnwrapPanic` marks
the `.unwrap()` on the compressed-script decode in the source, which
panics rather than returning an error. -/
inductive DecErr where
  | truncated
  | invalidScript
  | scriptUnwrapPanic
  deriving DecidableEq, Repr

/-- Modelled from the spec: single-byte read primitive, failing with a
stream-exhaustion error if no byte is available (`ReadExt::read_u8`). -/
def readU8 : List Nat → Except DecErr (Nat × List Nat)
  | [] => .error .truncated
  | b :: rest => .ok (b, rest)

/-- Modelled from the spec: exact-length byte read (`read_slice`),
failing with a stream error on short reads. -/
def readBytes (n : Nat) (s : List Nat) : Except DecErr (List Nat × List Nat) :=
  if n ≤ s.length then .ok (s.take n, s.drop n) else .error .truncated

/-- Modelled from the spec: decode loop of the alternate compact
integer codec (`VarInt2`), a continuation-bit style self-delimiting
encoding: each byte contributes its low 7 bits, a set high bit means
"continue" and adds one to the accumulator before the next shift. -/
def varint2DecodeAux : List Nat → Nat → Except DecErr (Nat × List Nat)
  | [], _ => .error .truncated
  | b :: rest, n =>
      if 128 ≤ b then varint2DecodeAux rest (n * 128 + b % 128 + 1)
      else .ok (n * 128 + b % 128, rest)

/-- Modelled from the spec: the alternate compact integer decoder
(`VarInt2::consensus_decode`). -/
def varint2Decode (s : List Nat) : Except DecErr (Nat × List Nat) :=
  varint2DecodeAux s 0

/-- Modelled from the spec: high-order byte groups of the alternate
compact integer encoding; every byte produced here carries the
continuation bit. -/
def varint2EncodeHigh (m : Nat) : List Nat :=
  if h : m < 128 then [m + 128]
  else varint2EncodeHigh (m / 128 - 1) ++ [m % 128 + 128]
  decreasing_by
    have h128 : 0 < m := by omega
    have := Nat.div_lt_self h128 (by norm_num : (1:Nat) < 128)
    omega

/-- Modelled from the spec: the alternate compact integer encoder
(`VarInt2::consensus_encode`): high-order continuation groups followed
by the final low 7-bit group without the continuation bit. -/
def varint2Encode (n : Nat) : List Nat :=
  if n < 128 then [n] else varint2EncodeHigh (n / 128 - 1) ++ [n % 128]

/-- `decompress_txout_amt` from the source, with the Rust
`usize` arithmetic on `Nat` and the `Result<usize, Error>` signature as
`Except DecErr Nat` (the body of the source function only ever returns
`Ok`). -/
def decompress_txout_amt (value_compressed : Nat) : Except DecErr Nat :=
  if value_compressed = 0 then .ok 0
  else
    let v1 := value_compressed - 1
    let exponent := v1 % 10
    let v2 := v1 / 10
    let n : Nat :=
      if exponent < 9 then
        let last_digit := v2 % 9 + 1
        let v3 := v2 / 9
        v3 * 10 + last_digit
      else v2 + 1
    .ok (n * 10 ^ exponent)

/-- The amount decompression algorithm as worded by the spec (§4.1);
kept separate from `decompress_txout_amt` so that the claim comparing
the two directions is a genuine refinement statement. -/
def decompressSpec (value : Nat) : Nat :=
  if value = 0 then 0
  else
    let v1 := value - 1
    let exponent := v1 % 10
    let v2 := v1 / 10
    let n : Nat := if exponent < 9 then (v2 / 9) * 10 + (v2 % 9 + 1) else v2 + 1
    n * 10 ^ exponent

/-- Script-length inference table from the source decoder:
codes `0 | 1 => 20`, `2..=5 => 32`, otherwise `code - 6`. -/
def scriptLenOf : Nat → Nat
  | 0 | 1 => 20
  | 2 | 3 | 4 | 5 => 32
  | n + 6 => n

/-- Modelled from the spec: the opaque compressed-script value produced
by the external compressed-script codec, holding the type tag and the
payload bytes it consumed. -/
structure CompressedScript where
  tag : Nat
  payload : List Nat
  deriving DecidableEq, Repr

/-- Modelled from the spec: the length behavior of the external
compressed-script decoder.  It reads the leading type-code byte, infers
the payload length from it (hash-based types 20 bytes, compressed-key
types 32 bytes, raw scripts `tag - 6` bytes), and consumes exactly that
many payload bytes, failing on a short buffer.  This is only the
length-contract instance: the collaborator additionally owns all
script-type semantics and may reject a type code or payload on content
(spec §6/§7), which no length model can decide, so claims about the
rejection path quantify over an abstract collaborator instead
(`txOutUndoDecodeWith`). -/
def csDecode : List Nat → Option (CompressedScript × List Nat)
  | [] => none
  | t :: rest =>
      let k := scriptLenOf t
      if k ≤ rest.length then some (⟨t, rest.take k⟩, rest.drop k)
      else none

/-- The contiguous buffer handed to the compressed-script decoder by
the source: a one-byte-truncated copy of the type code
(`script_pubkey_buf[0] = script_len_code as u8`) followed by the
payload bytes read from the stream. -/
def scriptBuf (script_len_code : Nat) (payload : List Nat) : List Nat :=
  script_len_code % 256 :: payload

/-- The `TxOutUndo` record from the source. -/
structure TxOutUndo where
  is_coin_base : Bool
  height : Nat
  amount : Nat
  script_pubkey : CompressedScript
  deriving DecidableEq, Repr

/-- `TxOutUndo::consensus_encode` from the source: it writes only
`self.is_coin_base` via the external boolean encoder (a single byte,
`0x01` for true and `0x00` for false); no other field reaches the
wire. -/
def txOutUndoEncode (x : TxOutUndo) : List Nat :=
  [if x.is_coin_base then 1 else 0]

/-- `TxOutUndo::consensus_decode` from the source: packed
height/coinbase integer (alternate varint), one reserved byte read and
discarded, packed compressed amount (alternate varint) run through
`decompress_txout_amt`, script type code (alternate varint), the
inferred-length payload, and the compressed-script decode of the
tag-prefixed buffer; the source `.unwrap()`s that last decode, modelled
by the distinguished `scriptUnwrapPanic` error. -/
def txOutUndoDecode (s : List Nat) : Except DecErr (TxOutUndo × List Nat) := do
  let (height_code, s1) ← varint2Decode s
  let is_coin_base := height_code % 2 == 1
  let height := height_code / 2
  let (_, s2) ← readU8 s1
  let (amount_compressed, s3) ← varint2Decode s2
  let amount ← decompress_txout_amt amount_compressed
  let (script_len_code, s4) ← varint2Decode s3
  let script_len := scriptLenOf script_len_code
  let (payload, s5) ← readBytes script_len s4
  match csDecode (scriptBuf script_len_code payload) with
  | some (script_pubkey, _) =>
      .ok ({ is_coin_base, height, amount, script_pubkey }, s5)
  | none => .error .scriptUnwrapPanic

/-- The compressed-script collaborator as an abstract interface: per
the spec (§6) it is consumed "contracts only", owns all script-type
semantics, and (§7) may reject a type code or payload with its own
error, which the codec is to propagate as-is. -/
def CsDecoder : Type := List Nat → Except DecErr (CompressedScript × List Nat)

/-- The length-contract collaborator instance: `csDecode` lifted to the
error monad, rejecting with `invalidScript` exactly where `csDecode`
fails. -/
def csDecodeExcept : CsDecoder := fun buf =>
  match csDecode buf with
  | some r => .ok r
  | none => .error .invalidScript

/-- A spec-admissible collaborator behavior that rejects every buffer
with its own `invalidScript` error; it exercises the rejection path the
spec reserves for the collaborator. -/
def csRejectAll : CsDecoder := fun _ => .error .invalidScript

/-- `TxOutUndo::consensus_decode` from the source with the
compressed-script collaborator as an explicit parameter (the field
reads are identical to `txOutUndoDecode`).  The last step renders the
source's `.unwrap()` faithfully: when the collaborator rejects, its
error is discarded and the decode aborts with the distinguished panic
marker — the collaborator's error is not returned to the caller. -/
def txOutUndoDecodeWith (cs : CsDecoder) (s : List Nat) :
    Except DecErr (TxOutUndo × List Nat) := do
  let (height_code, s1) ← varint2Decode s
  let is_coin_base := height_code % 2 == 1
  let height := height_code / 2
  let (_, s2) ← readU8 s1
  let (amount_compressed, s3) ← varint2Decode s2
  let amount ← decompress_txout_amt amount_compressed
  let (script_len_code, s4) ← varint2Decode s3
  let script_len := scriptLenOf script_len_code
  let (payload, s5) ← readBytes script_len s4
  match cs (scriptBuf script_len_code payload) with
  | .ok (script_pubkey, _) =>
      .ok ({ is_coin_base, height, amount, script_pubkey }, s5)
  | .error _ => .error .scriptUnwrapPanic

/-- Modelled from the spec: pack(height, is_coin_base) =
`height*2 + (1 if is_coin_base else 0)`; the encode direction is absent
from the source fragment (the encoder is stubbed), so this follows the
spec's contract (§4.2). -/
def packHeightCode (height : Nat) (is_coin_base : Bool) : Nat :=
  height * 2 + (if is_coin_base then 1 else 0)

/-- Height/coinbase unpacking from the source decoder:
`is_coin_base = (code % 2 == 1)`, `height = code / 2`. -/
def unpackHeightCode (code : Nat) : Bool × Nat :=
  (code % 2 == 1, code / 2)

/-- The `TxUndo` record from the source. -/
structure TxUndo where
  output_undo : List TxOutUndo
  deriving DecidableEq, Repr

/-- The `BlockUndo` record from the source. -/
structure BlockUndo where
  txdata_undo : List TxUndo
  deriving DecidableEq, Repr

/-- Modelled from the spec: encoded length of the standard compact
integer (`VarInt::len`) used for sequence counts. -/
def varIntLen (n : Nat) : Nat :=
  if n < 0xFD then 1 else if n ≤ 0xFFFF then 3
  else if n ≤ 0xFFFFFFFF then 5 else 9

/-- `TxUndo::get_size` from the source: the body is `todo!()`, which
panics on every input; the panic is modelled as `none`. -/
def TxUndo.get_size (_ : TxUndo) : Option Nat := none

/-- `TxOutUndo.get_size` from the source: the body is `todo!()`, which
panics on every input; the panic is modelled as `none`. -/
def TxOutUndo.get_size (_ : TxOutUndo) : Option Nat := none

/-- `BlockUndo::get_size` from the source: the count-prefix length plus
the sum over `TxUndo::get_size`; since the children panic, the sum
panics (`none`) as soon as the block holds at least one `TxUndo`. -/
def BlockUndo.get_size (b : BlockUndo) : Option Nat := do
  let sizes ← b.txdata_undo.mapM TxUndo.get_size
  pure (varIntLen b.txdata_undo.length + sizes.sum)

theorem except_bind_ok {ε α β : Type} (a : α) (f : α → Except ε β) :
    (Except.ok a >>= f) = f a := rfl

theorem except_bind_error {ε α β : Type} (e : ε) (f : α → Except ε β) :
    ((Except.error e : Except ε α) >>= f) = Except.error e := rfl

/-- Consuming the continuation-marked byte groups of `m` from
accumulator `0` leaves the decoder with accumulator `m + 1`. -/
theorem varint2DecodeAux_encodeHigh (m : Nat) :
    ∀ rest, varint2DecodeAux (varint2EncodeHigh m ++ rest) 0 =
      varint2DecodeAux rest (m + 1) := by
  induction m using Nat.strong_induction_on with
  | _ m ih =>
    intro rest
    by_cases h : m < 128
    · rw [varint2EncodeHigh, dif_pos h]
      have hb : 128 ≤ m + 128 := by omega
      have hm : (m + 128) % 128 = m := by omega
      simp [varint2DecodeAux, hb, hm]
    · rw [varint2EncodeHigh, dif_neg h]
      have hdm := Nat.div_add_mod m 128
      have hml : m % 128 < 128 := Nat.mod_lt _ (by norm_num)
      have hpos : 0 < m := by omega
      have hdl : m / 128 < m := Nat.div_lt_self hpos (by norm_num)
      rw [List.append_assoc, List.cons_append, List.nil_append,
        ih (m / 128 - 1) (by omega)]
      have hb : 128 ≤ m % 128 + 128 := by omega
      have hm : (m % 128 + 128) % 128 = m % 128 := by omega
      have hq : 1 ≤ m / 128 := by omega
      have harith : (m / 128 - 1 + 1) * 128 + (m % 128 + 128) % 128 + 1 = m + 1 := by
        rw [hm]; omega
      simp only [varint2DecodeAux, if_pos hb, harith]

/-- The alternate compact integer codec round-trips: decoding an
encoded value consumes exactly its bytes and returns the value. -/
theorem varint2_decode_encode (n : Nat) (rest : List Nat) :
    varint2Decode (varint2Encode n ++ rest) = .ok (n, rest) := by
  unfold varint2Decode varint2Encode
  by_cases h : n < 128
  · have hnb : ¬ 128 ≤ n := by omega
    rw [if_pos h]
    simp [varint2DecodeAux, hnb, Nat.mod_eq_of_lt h]
  · rw [if_neg h, List.append_assoc, List.cons_append, List.nil_append,
      varint2DecodeAux_encodeHigh]
    have hdm := Nat.div_add_mod n 128
    have hml : n % 128 < 128 := Nat.mod_lt _ (by omega)
    have hnb : ¬ 128 ≤ n % 128 := by omega
    have hq : 1 ≤ n / 128 := by omega
    have harith : (n / 128 - 1 + 1) * 128 + n % 128 % 128 = n := by
      rw [Nat.mod_mod_of_dvd _ (by norm_num)]; omega
    simp only [varint2DecodeAux, if_neg hnb, harith]

/-- Structure of every successful `TxOutUndo` decode: the exact
sequence of reads, the origin of each field, and the buffer handed to
the compressed-script decoder. -/
theorem txOutUndoDecode_ok_elim {s : List Nat} {v : TxOutUndo} {rest : List Nat}
    (h : txOutUndoDecode s = .ok (v, rest)) :
    ∃ hc b s2 ac s3 amt sc s4 payload sp left,
      varint2Decode s = .ok (hc, b :: s2) ∧
      varint2Decode s2 = .ok (ac, s3) ∧
      decompress_txout_amt ac = .ok amt ∧
      varint2Decode s3 = .ok (sc, s4) ∧
      readBytes (scriptLenOf sc) s4 = .ok (payload, rest) ∧
      payload.length = scriptLenOf sc ∧
      payload = s4.take (scriptLenOf sc) ∧
      rest = s4.drop (scriptLenOf sc) ∧
      csDecode (scriptBuf sc payload) = some (sp, left) ∧
      v = ⟨hc % 2 == 1, hc / 2, amt, sp⟩ := by
  unfold txOutUndoDecode at h
  cases h1 : varint2Decode s with
  | error e =>
    simp only [h1, except_bind_error] at h
    exact Except.noConfusion h
  | ok p =>
    obtain ⟨hc, s1⟩ := p
    simp only [h1, except_bind_ok] at h
    cases s1 with
    | nil =>
      simp only [readU8, except_bind_error] at h
      exact Except.noConfusion h
    | cons b s2 =>
      simp only [readU8, except_bind_ok] at h
      cases h3 : varint2Decode s2 with
      | error e =>
        simp only [h3, except_bind_error] at h
        exact Except.noConfusion h
      | ok q =>
        obtain ⟨ac, s3⟩ := q
        simp only [h3, except_bind_ok] at h
        cases h4 : decompress_txout_amt ac with
        | error e =>
          simp only [h4, except_bind_error] at h
          exact Except.noConfusion h
        | ok amt =>
          simp only [h4, except_bind_ok] at h
          cases h5 : varint2Decode s3 with
          | error e =>
            simp only [h5, except_bind_error] at h
            exact Except.noConfusion h
          | ok r =>
            obtain ⟨sc, s4⟩ := r
            simp only [h5, except_bind_ok] at h
            by_cases hlen : scriptLenOf sc ≤ s4.length
            · simp only [readBytes, if_pos hlen, except_bind_ok] at h
              cases h6 : csDecode (scriptBuf sc (s4.take (scriptLenOf sc))) with
              | none =>
                simp only [h6] at h
                exact Except.noConfusion h
              | some w =>
                obtain ⟨sp, left⟩ := w
                simp only [h6] at h
                have hinj := Except.ok.inj h
                injection hinj with hv hrest
                subst hv
                subst hrest
                exact ⟨hc, b, s2, ac, s3, amt, sc, s4,
                  s4.take (scriptLenOf sc), sp, left, rfl, h3, h4, h5,
                  by simp [readBytes, if_pos hlen],
                  by simp [List.length_take, Nat.min_eq_left hlen],
                  rfl, rfl, h6, rfl⟩
            · simp only [readBytes, if_neg hlen, except_bind_error] at h
              exact Except.noConfusion h

/-- `decompress_txout_amt` always succeeds and computes the spec's
formula: every path of the source body returns `Ok`. -/
theorem decompress_total (v : Nat) :
    decompress_txout_amt v = .ok (decompressSpec v) := by
  by_cases h : v = 0 <;> simp [decompress_txout_amt, decompressSpec, h]

/-- The alternate varint decode loop can only fail by stream
exhaustion. -/
theorem varint2DecodeAux_error_eq (s : List Nat) :
    ∀ n e, varint2DecodeAux s n = .error e → e = .truncated := by
  induction s with
  | nil =>
    intro n e h
    exact (Except.error.inj h).symm
  | cons b rest ih =>
    intro n e h
    unfold varint2DecodeAux at h
    by_cases hb : 128 ≤ b
    · rw [if_pos hb] at h
      exact ih _ _ h
    · rw [if_neg hb] at h
      exact Except.noConfusion h

/-- Every byte value below 256 selects an inferred length of at most
249 bytes. -/
theorem scriptLenOf_byte_le (t : Nat) (ht : t < 256) : scriptLenOf t ≤ 249 := by
  rcases t with _ | _ | _ | _ | _ | _ | d
  · decide
  · decide
  · decide
  · decide
  · decide
  · decide
  · simp only [scriptLenOf]
    omega

/-- Under the length-contract instance the buffer the source constructs
(truncated type code followed by an inferred-length payload) always
carries enough bytes for what its leading byte demands, so `csDecode`
parses it; whether the full collaborator also accepts it is a matter of
script-type semantics outside this instance. -/
theorem csDecode_scriptBuf_some (sc : Nat) (payload : List Nat)
    (hl : payload.length = scriptLenOf sc) :
    csDecode (scriptBuf sc payload) =
      some (⟨sc % 256, payload.take (scriptLenOf (sc % 256))⟩,
        payload.drop (scriptLenOf (sc % 256))) := by
  have hle : scriptLenOf (sc % 256) ≤ payload.length := by
    rw [hl]
    by_cases h : sc < 256
    · rw [Nat.mod_eq_of_lt h]
    · obtain ⟨d, rfl⟩ : ∃ d, sc = d + 6 := ⟨sc - 6, by omega⟩
      have hd : scriptLenOf (d + 6) = d := rfl
      rw [hd]
      have := scriptLenOf_byte_le ((d + 6) % 256) (Nat.mod_lt _ (by norm_num))
      omega
  simp [csDecode, scriptBuf, hle]

/-- C1: `TxOutUndo` decode reads, in order, one alternate-varint
packed height/coinbase integer, one reserved byte, one alternate-varint
compressed amount, and one alternate-varint script type code followed
by the inferred-length payload; the returned `amount` equals
`decompress_txout_amt` of the compressed amount actually read, and
`height` / `is_coin_base` are derived solely from the packed field. -/
theorem c1_decode_order_and_amount_invariant (s : List Nat) (v : TxOutUndo)
    (rest : List Nat) (h : txOutUndoDecode s = .ok (v, rest)) :
    ∃ hc b s2 ac s3 sc s4 payload,
      varint2Decode s = .ok (hc, b :: s2) ∧
      varint2Decode s2 = .ok (ac, s3) ∧
      varint2Decode s3 = .ok (sc, s4) ∧
      payload = s4.take (scriptLenOf sc) ∧
      payload.length = scriptLenOf sc ∧
      rest = s4.drop (scriptLenOf sc) ∧
      decompress_txout_amt ac = .ok v.amount ∧
      v.is_coin_base = (hc % 2 == 1) ∧
      v.height = hc / 2 := by
  obtain ⟨hc, b, s2, ac, s3, amt, sc, s4, payload, sp, left,
    e1, e2, e3, e4, e5, e6, e7, e8, e9, e10⟩ := txOutUndoDecode_ok_elim h
  subst e10
  exact ⟨hc, b, s2, ac, s3, sc, s4, payload, e1, e2, e4, e7, e6, e8, e3, rfl, rfl⟩

/-- Witness for C1 on a concrete five-field stream: packed height 1
(coinbase, height 0), reserved byte 0, compressed amount 10
(1 BTC = 10^9 satoshi), script code 0 with a 20-byte payload. -/
theorem c1_decode_order_and_amount_invariant_witness :
    ∃ hc b s2 ac s3 sc s4 payload,
      varint2Decode ([1, 0, 10, 0] ++ List.replicate 20 5) = .ok (hc, b :: s2) ∧
      varint2Decode s2 = .ok (ac, s3) ∧
      varint2Decode s3 = .ok (sc, s4) ∧
      payload = s4.take (scriptLenOf sc) ∧
      payload.length = scriptLenOf sc ∧
      ([] : List Nat) = s4.drop (scriptLenOf sc) ∧
      decompress_txout_amt ac =
        .ok (TxOutUndo.amount ⟨true, 0, 1000000000, ⟨0, List.replicate 20 5⟩⟩) ∧
      TxOutUndo.is_coin_base ⟨true, 0, 1000000000, ⟨0, List.replicate 20 5⟩⟩ =
        (hc % 2 == 1) ∧
      TxOutUndo.height ⟨true, 0, 1000000000, ⟨0, List.replicate 20 5⟩⟩ = hc / 2 :=
  c1_decode_order_and_amount_invariant ([1, 0, 10, 0] ++ List.replicate 20 5)
    ⟨true, 0, 1000000000, ⟨0, List.replicate 20 5⟩⟩ [] rfl

/-- C2: the amount decompression function follows the spec's algorithm
for every input (0 maps to 0; otherwise subtract 1, split off the
exponent base 10, reassemble the mantissa digit base 9, scale by the
power of ten), and takes the stated concrete values at 0, 1, 2, 10. -/
theorem c2_decompress_matches_spec :
    (∀ v, decompress_txout_amt v = .ok (decompressSpec v)) ∧
    decompress_txout_amt 0 = .ok 0 ∧
    decompress_txout_amt 1 = .ok 1 ∧
    decompress_txout_amt 2 = .ok 10 ∧
    decompress_txout_amt 10 = .ok 1000000000 :=
  ⟨decompress_total, rfl, rfl, rfl, rfl⟩

/-- C4: height/coinbase packing is `height*2 + coinbase-bit`, unpacking
takes the parity bit and halves, and the two are mutually inverse for
every height and flag. -/
theorem c4_height_coinbase_pack_unpack :
    (∀ h c, packHeightCode h c = h * 2 + (if c then 1 else 0)) ∧
    (∀ code, unpackHeightCode code = (code % 2 == 1, code / 2)) ∧
    packHeightCode 0 false = 0 ∧
    packHeightCode 0 true = 1 ∧
    packHeightCode 2 false = 4 ∧
    (∀ h c, unpackHeightCode (packHeightCode h c) = (c, h)) := by
  refine ⟨fun h c => rfl, fun code => rfl, rfl, rfl, rfl, fun h c => ?_⟩
  cases c
  · simp [packHeightCode, unpackHeightCode, Prod.ext_iff]
  · simp [packHeightCode, unpackHeightCode, Prod.ext_iff]
    omega

/-- C10: the amount decompression function returns `Ok` on every
input; its declared error branch is never taken. -/
theorem c10_decompress_infallible (v : Nat) :
    ∃ n, decompress_txout_amt v = .ok n :=
  ⟨decompressSpec v, decompress_total v⟩

set_option maxRecDepth 8000 in
/-- C5 counterexample: for the script type code 256 (alternate-varint
bytes `0x81 0x00`) the source hands the compressed-script decoder a
buffer whose first byte is `256 as u8 = 0`, not the type code 256: the
decoded script carries tag 0, its 20-byte hash-type payload, and the
remaining 230 payload bytes are silently dropped. -/
theorem c5_truncated_type_code_counterexample :
    scriptBuf 256 (List.replicate 250 7) = 0 :: List.replicate 250 7 ∧
    txOutUndoDecode ([4, 0, 10, 129, 0] ++ List.replicate 250 7) =
      .ok (⟨false, 2, 1000000000, ⟨0, List.replicate 20 7⟩⟩, []) ∧
    (0 : Nat) ≠ 256 :=
  ⟨rfl, rfl, by decide⟩

/-- C5 (amended): the inferred payload length is 20 bytes for codes 0
and 1, 32 bytes for codes 2 through 5, and `c - 6` bytes for codes
`c ≥ 6`; the decoder reads exactly that many additional bytes after the
type code and hands the compressed-script decoder a contiguous buffer
whose first byte is the type code truncated to one byte (`c mod 256`),
followed by the payload. -/
theorem c5_script_length_table_and_buffer (s : List Nat) (v : TxOutUndo)
    (rest : List Nat) (h : txOutUndoDecode s = .ok (v, rest)) :
    scriptLenOf 0 = 20 ∧ scriptLenOf 1 = 20 ∧
    (∀ c, 2 ≤ c → c ≤ 5 → scriptLenOf c = 32) ∧
    (∀ c, 6 ≤ c → scriptLenOf c = c - 6) ∧
    ∃ hc b s2 ac s3 sc s4 payload left,
      varint2Decode s = .ok (hc, b :: s2) ∧
      varint2Decode s2 = .ok (ac, s3) ∧
      varint2Decode s3 = .ok (sc, s4) ∧
      payload = s4.take (scriptLenOf sc) ∧
      payload.length = scriptLenOf sc ∧
      rest = s4.drop (scriptLenOf sc) ∧
      scriptBuf sc payload = sc % 256 :: payload ∧
      csDecode (scriptBuf sc payload) = some (v.script_pubkey, left) := by
  refine ⟨rfl, rfl, ?_, ?_, ?_⟩
  · intro c h2 h5
    interval_cases c <;> rfl
  · intro c h6
    obtain ⟨d, rfl⟩ : ∃ d, c = d + 6 := ⟨c - 6, by omega⟩
    simp only [scriptLenOf]
    omega
  · obtain ⟨hc, b, s2, ac, s3, amt, sc, s4, payload, sp, left,
      e1, e2, e3, e4, e5, e6, e7, e8, e9, e10⟩ := txOutUndoDecode_ok_elim h
    subst e10
    exact ⟨hc, b, s2, ac, s3, sc, s4, payload, left,
      e1, e2, e4, e7, e6, e8, rfl, e9⟩

/-- Witness for the amended C5 on a concrete stream: packed height 3
(coinbase, height 1), a nonzero reserved byte, compressed amount 2,
script code 3 with a 32-byte payload. -/
theorem c5_script_length_table_and_buffer_witness :
    scriptLenOf 0 = 20 ∧ scriptLenOf 1 = 20 ∧
    (∀ c, 2 ≤ c → c ≤ 5 → scriptLenOf c = 32) ∧
    (∀ c, 6 ≤ c → scriptLenOf c = c - 6) ∧
    ∃ hc b s2 ac s3 sc s4 payload left,
      varint2Decode ([3, 9, 2, 3] ++ List.replicate 32 1) = .ok (hc, b :: s2) ∧
      varint2Decode s2 = .ok (ac, s3) ∧
      varint2Decode s3 = .ok (sc, s4) ∧
      payload = s4.take (scriptLenOf sc) ∧
      payload.length = scriptLenOf sc ∧
      ([] : List Nat) = s4.drop (scriptLenOf sc) ∧
      scriptBuf sc payload = sc % 256 :: payload ∧
      csDecode (scriptBuf sc payload) =
        some (TxOutUndo.script_pubkey ⟨true, 1, 10, ⟨3, List.replicate 32 1⟩⟩, left) :=
  c5_script_length_table_and_buffer ([3, 9, 2, 3] ++ List.replicate 32 1)
    ⟨true, 1, 10, ⟨3, List.replicate 32 1⟩⟩ [] rfl

/-- C7: exactly one reserved byte is read immediately after the packed
height/coinbase field and its value is never inspected: decoding is
invariant under replacing that byte, and decoding fails with the
stream-exhaustion error when the stream ends right before it. -/
theorem c7_reserved_byte_discarded (h b : Nat) (rest : List Nat) :
    txOutUndoDecode (varint2Encode h ++ (b :: rest)) =
      txOutUndoDecode (varint2Encode h ++ (0 :: rest)) ∧
    txOutUndoDecode (varint2Encode h) = .error .truncated := by
  constructor
  · unfold txOutUndoDecode
    rw [varint2_decode_encode h (b :: rest), varint2_decode_encode h (0 :: rest)]
    simp only [except_bind_ok, readU8]
  · unfold txOutUndoDecode
    rw [show varint2Encode h = varint2Encode h ++ [] from (List.append_nil _).symm,
      varint2_decode_encode h []]
    simp only [except_bind_ok, readU8, except_bind_error]

/-- Instantiating the parameterized decoder with the length-contract
collaborator instance yields exactly the concrete decoder embedded from
the source. -/
theorem txOutUndoDecodeWith_csDecodeExcept (s : List Nat) :
    txOutUndoDecodeWith csDecodeExcept s = txOutUndoDecode s := by
  unfold txOutUndoDecodeWith txOutUndoDecode
  cases h1 : varint2Decode s with
  | error e => simp only [h1, except_bind_error]
  | ok p =>
    obtain ⟨hc, s1⟩ := p
    simp only [h1, except_bind_ok]
    cases s1 with
    | nil => simp only [readU8, except_bind_error]
    | cons b s2 =>
      simp only [readU8, except_bind_ok]
      cases h3 : varint2Decode s2 with
      | error e => simp only [h3, except_bind_error]
      | ok q =>
        obtain ⟨ac, s3⟩ := q
        simp only [h3, except_bind_ok, decompress_total]
        cases h5 : varint2Decode s3 with
        | error e => simp only [h5, except_bind_error]
        | ok r =>
          obtain ⟨sc, s4⟩ := r
          simp only [h5, except_bind_ok]
          by_cases hlen : scriptLenOf sc ≤ s4.length
          · simp only [readBytes, if_pos hlen, except_bind_ok]
            cases h6 : csDecode (scriptBuf sc (s4.take (scriptLenOf sc))) with
            | none => simp only [csDecodeExcept, h6]
            | some w =>
              obtain ⟨sp, left⟩ := w
              simp only [csDecodeExcept, h6]
          · simp only [readBytes, if_neg hlen, except_bind_error]

/-- C8 (code evaluated at the failing input): the spec reserves the
right of the compressed-script collaborator to reject a type code or
payload and requires that rejection to reach the caller as an error
result unchanged, but the source unwraps the collaborator's result, so
a rejection panics instead.  With a spec-admissible collaborator that
rejects the handed buffer: on the stream `[1, 0, 1, 0]` plus a 20-byte
payload the collaborator reports its own `invalidScript` error, yet the
decode ends in the panic marker, not in that error; stream-level read
failures, by contrast, do propagate unchanged (empty stream shown). -/
theorem c8_script_rejection_panics_not_propagated :
    csRejectAll (scriptBuf 0 (List.replicate 20 0)) = .error .invalidScript ∧
    txOutUndoDecodeWith csRejectAll ([1, 0, 1, 0] ++ List.replicate 20 0) =
      .error .scriptUnwrapPanic ∧
    DecErr.scriptUnwrapPanic ≠ DecErr.invalidScript ∧
    varint2Decode ([] : List Nat) = .error .truncated ∧
    txOutUndoDecodeWith csRejectAll [] = .error .truncated :=
  ⟨rfl, rfl, by decide, rfl, rfl⟩

/-- C3 (code evaluated at the failing input): the source encoder
writes only the coinbase flag byte, so decoding its output exhausts the
stream at the reserved byte instead of returning the original record:
the round-trip `decode (encode x) = x` fails for every `x`. -/
theorem c3_roundtrip_fails_on_stub_encoder :
    txOutUndoEncode ⟨false, 0, 0, ⟨0, List.replicate 20 0⟩⟩ = [0] ∧
    txOutUndoDecode (txOutUndoEncode ⟨false, 0, 0, ⟨0, List.replicate 20 0⟩⟩) =
      .error .truncated :=
  ⟨rfl, rfl⟩

/-- C6 (code evaluated at the failing input): `consensus_encode` emits
exactly one byte — the coinbase flag — for any record, omitting the
packed height, the reserved byte, the compressed amount and the script
from the wire output. -/
theorem c6_encoder_writes_only_coinbase_flag :
    txOutUndoEncode ⟨false, 5, 7, ⟨0, List.replicate 20 3⟩⟩ = [0] ∧
    txOutUndoEncode ⟨true, 5, 7, ⟨0, List.replicate 20 3⟩⟩ = [1] :=
  ⟨rfl, rfl⟩

/-- C9 (code evaluated at the failing input): `TxUndo::get_size` and
`TxOutUndo::get_size` are `todo!()` and panic on every input (modelled
as `none`), so `BlockUndo::get_size` panics as soon as the block holds
one `TxUndo`; only the empty block returns a size (the one-byte count
prefix). -/
theorem c9_get_size_unimplemented :
    TxUndo.get_size ⟨[]⟩ = none ∧
    TxOutUndo.get_size ⟨false, 0, 0, ⟨0, []⟩⟩ = none ∧
    BlockUndo.get_size ⟨[⟨[]⟩]⟩ = none ∧
    BlockUndo.get_size ⟨[]⟩ = some 1 :=
  ⟨rfl, rfl, rfl, rfl⟩

end Undo
